import Mathlib

/-!
Verification of the cross-instance server-propagation subsystem of the
dnsname CNI plugin (`plugins/meta/dnsname/server.go`), of its process
supervision (`dnsmasq.go`), and of the `cmdCheck` operation (`main.go`).

The filesystem is modelled at line granularity: a forwarder file is an
`Option (List String)` (`none` = the file does not exist, `some lines` =
its lines in order).  The per-network directories under the shared conf
root are modelled as an association list from network name to instance
state, in directory-enumeration order (`ioutil.ReadDir` returns entries
sorted by name; the model takes the list order as the enumeration
order).  Daemon supervision during propagation is modelled by a
`running` flag and a `restarts` counter: the code restarts a sibling
(`stop` then `start`) exactly when it rewrote the sibling's
local-servers file and the sibling was running; restarts are modelled
as always succeeding.  Text-level serialization of a forwarder file
(`writeServerItems` / `readServerItems` over the real byte stream) is
modelled separately by `writeFileContent` / `scanFileLines`.
-/

/-- State of one per-network instance directory: the two multi-domain
forwarder files (`none` when the file does not exist), whether the
daemon answers the pid-file liveness probe, and how many times this
call restarted it. -/
structure DNSInstance where
  ownServers : Option (List String)
  localServers : Option (List String)
  running : Bool
  restarts : Nat
deriving Repr, DecidableEq

/-- The shared conf root: one entry per network directory, in
directory-enumeration order. -/
abbrev FS := List (String × DNSInstance)

/-- The instance stored for a network name; a name without an entry
denotes a directory with no files and no daemon. -/
def lookupInst : FS → String → DNSInstance
  | [], _ => ⟨none, none, false, 0⟩
  | p :: ps, n => if p.1 = n then p.2 else lookupInst ps n

/-- Replace the instance stored under a name (no-op if absent). -/
def updateInstance (fs : FS) (name : String) (f : DNSInstance → DNSInstance) : FS :=
  fs.map (fun p => if p.1 = name then (p.1, f p.2) else p)

/-- Names in the shared root, in enumeration order. -/
def fsNames (fs : FS) : List String := fs.map Prod.fst

/-- Whether a network directory exists under the shared root. -/
def hasName (fs : FS) (n : String) : Bool := fs.any (fun p => p.1 = n)

/-- The subset of `dnsNameFile` relevant to propagation: the instance's
network name (the base name of its directory) and its domain. -/
structure DNSNameFile where
  network : String
  domain : String

/-- Read failures distinguished by the code: only `os.IsNotExist` is
ever inspected, so the model carries just that kind. -/
inductive FileErr
  | notExist
deriving Repr, DecidableEq

/-- Errors of the propagation subsystem: the domain-collision error
(`errors.Errorf("domain %s already exists", domainName)`) and a
propagated read error. -/
inductive SrvErr
  | domainExists (domain : String)
  | readErr (e : FileErr)
deriving Repr, DecidableEq

/-- `readServerItems` (server.go): opening a missing file fails; each
line of an existing file is returned in order. -/
def readServerItems (file : Option (List String)) : Except FileErr (List String) :=
  match file with
  | none => .error .notExist
  | some lines => .ok lines

/-- The `err != nil && !os.IsNotExist(err)` pattern used by every
caller on the add path: a missing file leaves the slice empty. -/
def readIgnoreNotExist (file : Option (List String)) : List String :=
  match readServerItems file with
  | .ok l => l
  | .error .notExist => []

/-- Lexicographic (code-point-wise, equivalently byte-wise for UTF-8)
comparison of character lists, Go's string order. -/
def listCharLe : List Char → List Char → Bool
  | [], _ => true
  | _ :: _, [] => false
  | a :: as, b :: bs =>
    if a.toNat < b.toNat then true
    else if b.toNat < a.toNat then false
    else listCharLe as bs

/-- Go's `<=` on strings. -/
def strLe (a b : String) : Bool := listCharLe a.data b.data

/-- Insert a string into a sorted list, keeping it sorted. -/
def insertSortedStr (s : String) : List String → List String
  | [] => [s]
  | t :: ts => if strLe s t then s :: t :: ts else t :: insertSortedStr s ts

/-- `sort.Strings`: lexicographic sort, performed by `writeServerItems`
before writing. -/
def sortStrings : List String → List String
  | [] => []
  | s :: ss => insertSortedStr s (sortStrings ss)

/-- `serversToServerItems` (server.go): `server=/<domain>/<ip>` per IP. -/
def serversToServerItems (domainName : String) (servers : List String) : List String :=
  servers.map (fun server => "server=/" ++ domainName ++ "/" ++ server)

/-- `strings.Split` on `/` over character lists: the segments between
slashes, keeping empty segments. -/
def splitSlash : List Char → List (List Char)
  | [] => [[]]
  | c :: cs =>
    if c = '/' then [] :: splitSlash cs
    else
      match splitSlash cs with
      | h :: t => (c :: h) :: t
      | [] => [[c]]

/-- The per-item check of `isDomainInList` (server.go): split on `/`;
lines with fewer than three fields never match; otherwise compare the
second field with the domain. -/
def lineHasDomain (domainName : String) (item : String) : Bool :=
  match splitSlash item.data with
  | _ :: d :: _ :: _ => domainName.data = d
  | _ => false

/-- `isDomainInList` (server.go). -/
def isDomainInList (domainName : String) (serverItems : List String) : Bool :=
  serverItems.any (lineHasDomain domainName)

/-- Inner state of `mergeServerItems`: the slice built so far and the
`modified` flag. -/
def mergeAux (acc : List String × Bool) : List String → List String × Bool
  | [] => acc
  | s :: rest =>
    if s ∈ acc.1 then mergeAux acc rest
    else mergeAux (acc.1 ++ [s], true) rest

/-- `mergeServerItems` (server.go): append each new server not already
present; `modified` reports whether anything was appended. -/
def mergeServerItems (curServers newServers : List String) : List String × Bool :=
  mergeAux (curServers, false) newServers

/-- The inner loop of `removeServerItems`: delete the first occurrence
of `s`, reporting whether one was found. -/
def removeFirst (s : String) : List String → List String × Bool
  | [] => ([], false)
  | t :: ts =>
    if s = t then (ts, true)
    else
      let r := removeFirst s ts
      (t :: r.1, r.2)

/-- Inner state of `removeServerItems`. -/
def removeAux (acc : List String × Bool) : List String → List String × Bool
  | [] => acc
  | r :: rest =>
    let res := removeFirst r acc.1
    removeAux (res.1, acc.2 || res.2) rest

/-- `removeServerItems` (server.go): for each server to remove, delete
its first occurrence; `modified` reports whether any was deleted. -/
def removeServerItems (curServers removeServers : List String) : List String × Bool :=
  removeAux (curServers, false) removeServers

/-- `addServersToInstance` (server.go): abort with the domain-collision
error when the sibling's own-servers file already lists the domain;
otherwise merge the new lines into the sibling's local-servers file,
write (sorted) and restart the sibling's daemon when modified, and
return the sibling's previous local lines followed by its own lines. -/
def addServersToInstance (fs : FS) (networkName domainName : String)
    (serverItems : List String) : Except SrvErr (FS × List String) :=
  let inst := lookupInst fs networkName
  let ownServerItems := readIgnoreNotExist inst.ownServers
  if isDomainInList domainName ownServerItems then
    .error (.domainExists domainName)
  else
    let curServerItems := readIgnoreNotExist inst.localServers
    let merged := mergeServerItems curServerItems serverItems
    let fs' := if merged.2 then
        updateInstance fs networkName (fun i =>
          { i with localServers := some (sortStrings merged.1),
                   restarts := if i.running then i.restarts + 1 else i.restarts })
      else fs
    .ok (fs', curServerItems ++ ownServerItems)

/-- The sibling walk of `addLocalServers`: the directory listing is the
snapshot taken before the loop; the caller's own directory is skipped;
the first sibling error aborts the walk, leaving earlier mutations in
place. -/
def addLoop (fs : FS) (names : List String) (curDir domainName : String)
    (serverItems acc : List String) : FS × List String × Option SrvErr :=
  match names with
  | [] => (fs, acc, none)
  | n :: rest =>
    if n = curDir then addLoop fs rest curDir domainName serverItems acc
    else
      match addServersToInstance fs n domainName serverItems with
      | .error e => (fs, acc, some e)
      | .ok (fs', instServers) =>
          addLoop fs' rest curDir domainName serverItems
            (mergeServerItems acc instServers).1

/-- The caller's scoped server lines, as they stand after the first
`writeServerItems` call of `addLocalServers` sorted them in place. -/
def itemsOf (conf : DNSNameFile) (servers : List String) : List String :=
  sortStrings (serversToServerItems conf.domain servers)

/-- Writing the caller's own-servers file. -/
def ownWrite (fs : FS) (conf : DNSNameFile) (items : List String) : FS :=
  updateInstance fs conf.network (fun i => { i with ownServers := some items })

/-- Writing a local-servers file. -/
def locWrite (fs : FS) (network : String) (l : List String) : FS :=
  updateInstance fs network (fun i => { i with localServers := some l })

/-- `addLocalServers` (server.go): write the caller's own-servers file
(`writeServerItems` sorts the slice in place, so later uses see the
sorted lines), read the caller's current local-servers file (missing =
empty), walk every sibling directory, remove the caller's own lines
from the accumulated result, and write it (sorted) as the caller's
local-servers file.  Returns the final filesystem and the error, if
any; on error the mutations already applied remain. -/
def addLocalServersFS (fs : FS) (conf : DNSNameFile) (servers : List String) :
    FS × Option SrvErr :=
  let serverItems := itemsOf conf servers
  let fs1 := ownWrite fs conf serverItems
  let acc0 := readIgnoreNotExist (lookupInst fs1 conf.network).localServers
  match addLoop fs1 (fsNames fs1) conf.network conf.domain serverItems acc0 with
  | (fs2, _, some e) => (fs2, some e)
  | (fs2, acc, none) =>
      (locWrite fs2 conf.network
        (sortStrings (removeServerItems acc serverItems).1), none)

/-- `removeServersFromInstance` (server.go): read the sibling's
local-servers file (note: a missing file is a propagated error here,
unlike on the add path), remove the lines, and when modified write the
file back (sorted) and restart the sibling's daemon if running. -/
def removeServersFromInstance (fs : FS) (networkName : String)
    (serverItems : List String) : Except SrvErr FS :=
  let inst := lookupInst fs networkName
  match readServerItems inst.localServers with
  | .error e => .error (.readErr e)
  | .ok curServerItems =>
    let removed := removeServerItems curServerItems serverItems
    .ok (if removed.2 then
        updateInstance fs networkName (fun i =>
          { i with localServers := some (sortStrings removed.1),
                   restarts := if i.running then i.restarts + 1 else i.restarts })
      else fs)

/-- The sibling walk of `removeLocalServers`. -/
def removeLoop (fs : FS) (names : List String) (curDir : String)
    (serverItems : List String) : FS × Option SrvErr :=
  match names with
  | [] => (fs, none)
  | n :: rest =>
    if n = curDir then removeLoop fs rest curDir serverItems
    else
      match removeServersFromInstance fs n serverItems with
      | .error e => (fs, some e)
      | .ok fs' => removeLoop fs' rest curDir serverItems

/-- `removeLocalServers` (server.go): rebuild the caller's scoped lines
(no write to the caller's own files) and remove them from every
sibling's local-servers file. -/
def removeLocalServersFS (fs : FS) (conf : DNSNameFile) (servers : List String) :
    FS × Option SrvErr :=
  removeLoop fs (fsNames fs) conf.network (serversToServerItems conf.domain servers)

/-- The four-instance scenario of the spec's end-to-end property:
net1/net2/net3 each own their scoped line and hold the other two in
their local-servers files; net4's directory exists with no files yet. -/
def fourNetFS : FS :=
  [("net1", ⟨some ["server=/net1/192.168.1.1"],
             some ["server=/net2/192.168.2.1", "server=/net3/192.168.3.1"], false, 0⟩),
   ("net2", ⟨some ["server=/net2/192.168.2.1"],
             some ["server=/net1/192.168.1.1", "server=/net3/192.168.3.1"], false, 0⟩),
   ("net3", ⟨some ["server=/net3/192.168.3.1"],
             some ["server=/net1/192.168.1.1", "server=/net2/192.168.2.1"], false, 0⟩),
   ("net4", ⟨none, none, false, 0⟩)]

/-- The net4 instance being added in the scenario. -/
def conf4 : DNSNameFile := ⟨"net4", "net4"⟩

/-- The scenario state right after net4's servers were propagated. -/
def postAddFS : FS := (addLocalServersFS fourNetFS conf4 ["192.168.4.1"]).1

/-- A state where net4's local-servers file already holds a scoped line
for net4's own domain with a different IP (and no sibling exists). -/
def staleOwnFS : FS :=
  [("net4", ⟨none, some ["server=/net4/10.0.0.9"], false, 0⟩)]

/-- A state where the sibling net1's local-servers file does not exist. -/
def missingLocalFS : FS :=
  [("net1", ⟨some ["server=/net1/192.168.1.1"], none, false, 0⟩),
   ("net4", ⟨some ["server=/net4/192.168.4.1"], some [], false, 0⟩)]

/-- A state where the sibling net1's own-servers file already claims
the domain net4. -/
def collidingFS : FS :=
  [("net1", ⟨some ["server=/net4/10.0.0.1"], some [], false, 0⟩),
   ("net4", ⟨none, none, false, 0⟩)]


/-- ASCII whitespace recognized by `strings.TrimSpace` (the further
Unicode space classes never occur in a pid file and are not modelled). -/
def isSpaceChar (c : Char) : Bool :=
  c = ' ' || c = '\t' || c = '\x0b' || c = '\x0c' || c = '\r' || c = '\x0a'

/-- `strings.TrimSpace` over the character list. -/
def trimChars (l : List Char) : List Char :=
  ((l.dropWhile isSpaceChar).reverse.dropWhile isSpaceChar).reverse

/-- `strings.TrimSpace`. -/
def trimSpace (s : String) : String := String.mk (trimChars s.data)

/-- ASCII decimal digit. -/
def isDigitChar (c : Char) : Bool := decide ('0' ≤ c) && decide (c ≤ '9')

/-- A nonempty all-digit run, the body accepted by `strconv.Atoi`. -/
def atoiDigits (l : List Char) : Bool := !l.isEmpty && l.all isDigitChar

/-- Whether `strconv.Atoi` accepts the string: an optional sign
followed by a nonempty digit run (the out-of-range case is not
modelled; pid values fit easily). -/
def atoiOk (s : String) : Bool :=
  match s.data with
  | [] => false
  | c :: rest => if c = '+' || c = '-' then atoiDigits rest else atoiDigits (c :: rest)

/-- Failure kinds of the supervision code (`dnsmasq.go`): the pid file
does not exist, its content does not parse as a pid, or `Kill` failed
with something other than "process already finished". -/
inductive PidError
  | notExist
  | parseError
  | killError
deriving Repr, DecidableEq

/-- `getProcess` (dnsmasq.go): read the pid file (missing file is an
`IsNotExist` error), `Atoi` the trimmed contents (failure is a parse
error).  `os.FindProcess` never fails on Unix; the trimmed pid string
stands for the process handle. -/
def getProcessE (pidFile : Option String) : Except PidError String :=
  match pidFile with
  | none => .error .notExist
  | some contents =>
    if atoiOk (trimSpace contents) then .ok (trimSpace contents)
    else .error .parseError

/-- `stop` (dnsmasq.go): a missing pid file is success; any other
`getProcess` error is propagated; `Kill` on an already-finished process
is success, any other kill failure (`killFails`) is an error. -/
def stopE (pidFile : Option String) (killFails : String → Bool) : Except PidError Unit :=
  match getProcessE pidFile with
  | .error .notExist => .ok ()
  | .error e => .error e
  | .ok pid => if killFails pid then .error .killError else .ok ()

/-- `isRunning` (dnsmasq.go): false when the pid file is absent, when
`getProcess` fails for any reason, or when the signal-0 probe fails
(`alive pid = false`); true only when the probe succeeds. -/
def isRunningE (pidFile : Option String) (alive : String → Bool) : Bool :=
  match pidFile with
  | none => false
  | some _ =>
    match getProcessE pidFile with
    | .error _ => false
    | .ok pid => alive pid

/-- Modelled from the spec: the per-instance daemon config file name
constant (`confFileName`), declared in a repository file not under
`src/`; its exact value is immaterial to the claims. -/
def confFileName : String := "dnsmasq.conf"

/-- Modelled from the spec: the per-instance container-hosts file name
constant (`hostsFileName`), declared in a repository file not under
`src/`; its exact value is immaterial to the claims. -/
def hostsFileName : String := "addnhosts"

/-- The state `cmdCheck` (main.go) observes: the names listed in the
shared conf root (in normal operation, exactly the per-network
directory names), whether the instance's daemon answers the liveness
probe, and whether the instance's config and hosts files exist inside
the instance's own directory.  The last two fields record the on-disk
truth the spec talks about; the code never inspects them. -/
structure CheckState where
  rootEntries : List String
  running : Bool
  confFileExists : Bool
  hostsFileExists : Bool
deriving Repr, DecidableEq

/-- `cmdCheck` (main.go), after config parsing and lock acquisition:
fail unless the daemon is running, then list the shared conf root and
fail unless the hosts-file name and the config-file name appear among
the listed entry names. -/
def cmdCheckModel (st : CheckState) : Except String Unit :=
  if !st.running then .error "dnsmasq instance not running"
  else if !(st.rootEntries.contains hostsFileName) then
    .error (hostsFileName ++ " file missing from configuration")
  else if !(st.rootEntries.contains confFileName) then
    .error (confFileName ++ " file missing from configuration")
  else .ok ()

/-- A healthy instance as `cmdCheck`'s preconditions describe it: the
daemon is running and the instance's config and hosts files exist; the
shared root lists exactly the net1 network directory. -/
def healthyCheckState : CheckState := ⟨["net1"], true, true, true⟩

/-- `dropCR` of `bufio.ScanLines`: strip one trailing carriage return. -/
def dropCR (l : List Char) : List Char :=
  match l.getLast? with
  | some c => if c = '\r' then l.dropLast else l
  | none => l

/-- `bufio.Scanner` with `ScanLines`: tokens are the runs between
newlines (each with a trailing carriage return stripped); a final
unterminated run is yielded, a trailing newline yields nothing after
it. -/
def scanLines : List Char → List Char → List String
  | [], acc => if acc.isEmpty then [] else [String.mk (dropCR acc.reverse)]
  | c :: cs, acc =>
    if c = '\x0a' then String.mk (dropCR acc.reverse) :: scanLines cs []
    else scanLines cs (c :: acc)

/-- The line sequence `readServerItems` obtains from a file's bytes. -/
def scanFileLines (content : List Char) : List String := scanLines content []

/-- The bytes `writeServerItems` produces: the lines sorted, each
followed by a newline (`fmt.Fprintln`). -/
def writeFileContent (servers : List String) : List Char :=
  (sortStrings servers).foldr (fun s acc => s.data ++ '\x0a' :: acc) []

/-- A well-formed line: no embedded newline and no trailing carriage
return (a ForwarderLine is a line-oriented token, so both hold for
every line the store is given). -/
def goodLine (s : String) : Prop :=
  '\x0a' ∉ s.data ∧ s.data.getLast? ≠ some '\r'

instance (s : String) : Decidable (goodLine s) := by
  unfold goodLine
  infer_instance

/-- Modelled from the spec: the lines of `incoming` not already
present, in first-seen order — the lines `merge` appends to `current`. -/
def freshOnes (cur : List String) : List String → List String
  | [] => []
  | s :: rest =>
    if s ∈ cur then freshOnes cur rest
    else s :: freshOnes (cur ++ [s]) rest

/-- Occurrence count of a line in a file's line list. -/
def countS (s : String) : List String → Nat
  | [] => 0
  | t :: ts => (if t = s then 1 else 0) + countS s ts

theorem updateInstance_cons (p : String × DNSInstance) (ps : FS) (n : String)
    (f : DNSInstance → DNSInstance) :
    updateInstance (p :: ps) n f =
      (if p.1 = n then (p.1, f p.2) else p) :: updateInstance ps n f := rfl

theorem lookupInst_update_ne (fs : FS) (n : String) (f : DNSInstance → DNSInstance)
    {m : String} (h : m ≠ n) :
    lookupInst (updateInstance fs n f) m = lookupInst fs m := by
  induction fs with
  | nil => rfl
  | cons p ps ih =>
    rw [updateInstance_cons]
    by_cases hp : p.1 = n
    · have hm : ¬ p.1 = m := fun hh => h (hh ▸ hp)
      rw [if_pos hp]
      simp [lookupInst, hm, ih]
    · rw [if_neg hp]
      by_cases hm : p.1 = m <;> simp [lookupInst, hm, ih]

theorem lookupInst_update_own (fs : FS) (n : String) (f : DNSInstance → DNSInstance)
    (hf : ∀ i, (f i).ownServers = i.ownServers) (m : String) :
    (lookupInst (updateInstance fs n f) m).ownServers = (lookupInst fs m).ownServers := by
  induction fs with
  | nil => rfl
  | cons p ps ih =>
    rw [updateInstance_cons]
    by_cases hp : p.1 = n
    · rw [if_pos hp]
      by_cases hm : p.1 = m
      · simp [lookupInst, hm, hf]
      · simp [lookupInst, hm, ih]
    · rw [if_neg hp]
      by_cases hm : p.1 = m <;> simp [lookupInst, hm, ih]

theorem updateInstance_not_has (fs : FS) (n : String) (f : DNSInstance → DNSInstance)
    (h : hasName fs n = false) : updateInstance fs n f = fs := by
  induction fs with
  | nil => rfl
  | cons p ps ih =>
    simp only [hasName, List.any_cons, Bool.or_eq_false_iff, decide_eq_false_iff_not] at h
    rw [updateInstance_cons, if_neg h.1, ih h.2]

theorem lookupInst_update_self (fs : FS) (n : String) (f : DNSInstance → DNSInstance)
    (h : hasName fs n = true) :
    lookupInst (updateInstance fs n f) n = f (lookupInst fs n) := by
  induction fs with
  | nil => simp [hasName] at h
  | cons p ps ih =>
    rw [updateInstance_cons]
    by_cases hp : p.1 = n
    · simp [hp, lookupInst]
    · simp only [hasName, List.any_cons, Bool.or_eq_true, decide_eq_true_eq] at h
      rcases h with h | h
      · exact absurd h hp
      · simp [hp, lookupInst, ih, h, hasName]

theorem fsNames_update (fs : FS) (n : String) (f : DNSInstance → DNSInstance) :
    fsNames (updateInstance fs n f) = fsNames fs := by
  induction fs with
  | nil => rfl
  | cons p ps ih =>
    rw [updateInstance_cons]
    by_cases hp : p.1 = n <;> simp [fsNames, hp, ih] <;>
      simpa [fsNames] using ih

theorem hasName_eq_names_mem (fs : FS) (n : String) :
    hasName fs n = true ↔ n ∈ fsNames fs := by
  induction fs with
  | nil => simp [hasName, fsNames]
  | cons p ps ih =>
    simp only [hasName, fsNames, List.any_cons, Bool.or_eq_true, decide_eq_true_eq,
      List.map_cons, List.mem_cons] at ih ⊢
    constructor
    · rintro (h | h)
      · exact Or.inl h.symm
      · exact Or.inr (ih.1 h)
    · rintro (h | h)
      · exact Or.inl h.symm
      · exact Or.inr (ih.2 h)

theorem mergeAux_eq (inc : List String) : ∀ (cur : List String) (b : Bool),
    mergeAux (cur, b) inc =
      (cur ++ freshOnes cur inc, b || !(freshOnes cur inc).isEmpty) := by
  induction inc with
  | nil => intro cur b; simp [mergeAux, freshOnes]
  | cons s rest ih =>
    intro cur b
    by_cases hs : s ∈ cur
    · simp [mergeAux, freshOnes, hs, ih]
    · simp [mergeAux, freshOnes, hs, ih, List.append_assoc]

theorem merge_eq_append (cur inc : List String) :
    (mergeServerItems cur inc).1 = cur ++ freshOnes cur inc := by
  simp [mergeServerItems, mergeAux_eq]

theorem merge_flag (cur inc : List String) :
    (mergeServerItems cur inc).2 = !(freshOnes cur inc).isEmpty := by
  simp [mergeServerItems, mergeAux_eq]

theorem freshOnes_subset : ∀ (inc cur : List String) (x : String),
    x ∈ freshOnes cur inc → x ∈ inc := by
  intro inc
  induction inc with
  | nil => intro cur x hx; simp [freshOnes] at hx
  | cons s rest ih =>
    intro cur x hx
    by_cases hs : s ∈ cur
    · rw [freshOnes, if_pos hs] at hx
      exact List.mem_cons_of_mem _ (ih cur x hx)
    · rw [freshOnes, if_neg hs] at hx
      rcases List.mem_cons.1 hx with hx | hx
      · subst hx; exact List.mem_cons_self _ _
      · exact List.mem_cons_of_mem _ (ih (cur ++ [s]) x hx)

theorem mem_append_freshOnes : ∀ (inc cur : List String) (x : String),
    x ∈ inc → x ∈ cur ++ freshOnes cur inc := by
  intro inc
  induction inc with
  | nil => intro cur x hx; simp at hx
  | cons t rest ih =>
    intro cur x hx
    by_cases ht : t ∈ cur
    · rw [freshOnes, if_pos ht]
      rcases List.mem_cons.1 hx with hx | hx
      · exact List.mem_append_left _ (hx ▸ ht)
      · exact ih cur x hx
    · rw [freshOnes, if_neg ht]
      rcases List.mem_cons.1 hx with hx | hx
      · subst hx
        exact List.mem_append_right _ (List.mem_cons_self _ _)
      · have := ih (cur ++ [t]) x hx
        rw [show cur ++ t :: freshOnes (cur ++ [t]) rest
              = (cur ++ [t]) ++ freshOnes (cur ++ [t]) rest by simp]
        exact this

theorem countS_append (s : String) (l m : List String) :
    countS s (l ++ m) = countS s l + countS s m := by
  induction l with
  | nil => simp [countS]
  | cons t ts ih => simp [countS, ih]; omega

theorem countS_eq_zero_iff (s : String) (l : List String) :
    countS s l = 0 ↔ s ∉ l := by
  induction l with
  | nil => simp [countS]
  | cons t ts ih =>
    by_cases ht : t = s
    · subst ht
      simp only [countS, if_pos rfl, List.mem_cons, not_or]
      have h1 : ¬ (1 + countS t ts = 0) := by omega
      constructor
      · intro h; exact absurd h h1
      · intro h; exact (h.1 trivial).elim
    · have hst : ¬ s = t := fun hh => ht hh.symm
      simp [countS, ht, ih, hst]

theorem countS_freshOnes_le : ∀ (inc cur : List String) (s : String),
    countS s (freshOnes cur inc) ≤ (if s ∈ cur then 0 else 1) := by
  intro inc
  induction inc with
  | nil => intro cur s; simp [freshOnes, countS]
  | cons t rest ih =>
    intro cur s
    by_cases ht : t ∈ cur
    · rw [freshOnes, if_pos ht]
      exact ih cur s
    · rw [freshOnes, if_neg ht]
      by_cases hts : t = s
      · subst hts
        have h2 := ih (cur ++ [t]) t
        have hmem : t ∈ cur ++ [t] := List.mem_append_right _ (List.mem_cons_self _ _)
        rw [if_pos hmem] at h2
        simp [countS, ht, Nat.le_zero.1 h2]
      · have h2 := ih (cur ++ [t]) s
        have : (s ∈ cur ++ [t]) ↔ (s ∈ cur) := by
          simp [List.mem_append]
          intro hs; exact absurd hs.symm hts
        rw [if_congr this rfl rfl] at h2
        simpa [countS, hts] using h2

theorem countS_merge_le (cur inc : List String) (s : String) :
    countS s (mergeServerItems cur inc).1 ≤ max (countS s cur) 1 := by
  rw [merge_eq_append, countS_append]
  by_cases hs : s ∈ cur
  · have h1 := countS_freshOnes_le inc cur s
    rw [if_pos hs] at h1
    omega
  · have h0 : countS s cur = 0 := (countS_eq_zero_iff s cur).2 hs
    have h1 := countS_freshOnes_le inc cur s
    rw [if_neg hs] at h1
    omega

theorem merge_flag_iff (cur inc : List String) :
    (mergeServerItems cur inc).2 = true ↔ (mergeServerItems cur inc).1 ≠ cur := by
  rw [merge_flag, merge_eq_append]
  cases h : freshOnes cur inc with
  | nil => simp
  | cons x xs =>
    simp only [List.isEmpty_cons, Bool.not_false, true_iff, ne_eq]
    intro heq
    have := congrArg List.length heq
    simp at this

theorem freshOnes_nil_of_subset : ∀ (inc cur : List String),
    (∀ x ∈ inc, x ∈ cur) → freshOnes cur inc = [] := by
  intro inc
  induction inc with
  | nil => intro cur _; rfl
  | cons s rest ih =>
    intro cur h
    have hs : s ∈ cur := h s (List.mem_cons_self _ _)
    rw [freshOnes, if_pos hs]
    exact ih cur (fun x hx => h x (List.mem_cons_of_mem _ hx))

theorem merge_self (X : List String) : mergeServerItems X X = (X, false) := by
  have h : freshOnes X X = [] := freshOnes_nil_of_subset X X (fun x hx => hx)
  simp [mergeServerItems, mergeAux_eq, h]

theorem removeFirst_not_mem (s : String) : ∀ (l : List String), s ∉ l →
    removeFirst s l = (l, false) := by
  intro l
  induction l with
  | nil => intro _; rfl
  | cons t ts ih =>
    intro h
    have hst : ¬ s = t := fun hh => h (hh ▸ List.mem_cons_self t ts)
    have hts : s ∉ ts := fun hh => h (List.mem_cons_of_mem _ hh)
    simp [removeFirst, hst, ih hts]

theorem removeFirst_first_occ (s : String) : ∀ (a b : List String), s ∉ a →
    removeFirst s (a ++ s :: b) = (a ++ b, true) := by
  intro a
  induction a with
  | nil => intro b _; simp [removeFirst]
  | cons t ts ih =>
    intro b h
    have hst : ¬ s = t := fun hh => h (hh ▸ List.mem_cons_self t ts)
    have hts : s ∉ ts := fun hh => h (List.mem_cons_of_mem _ hh)
    simp [removeFirst, hst, ih b hts]

theorem countS_removeFirst_self (s : String) : ∀ (l : List String),
    countS s (removeFirst s l).1 = countS s l - min 1 (countS s l) := by
  intro l
  induction l with
  | nil => rfl
  | cons t ts ih =>
    by_cases h : s = t
    · subst h
      simp [removeFirst, countS]
    · have hts : ¬ t = s := fun hh => h hh.symm
      simp only [removeFirst, if_neg h, countS, if_neg hts, Nat.zero_add]
      exact ih

theorem countS_removeFirst_ne (r s : String) (h : ¬ r = s) : ∀ (l : List String),
    countS s (removeFirst r l).1 = countS s l := by
  intro l
  induction l with
  | nil => rfl
  | cons t ts ih =>
    by_cases hrt : r = t
    · subst hrt
      simp [removeFirst, countS, h]
    · simp only [removeFirst, if_neg hrt, countS]
      omega

theorem removeFirst_len_le (s : String) : ∀ (l : List String),
    (removeFirst s l).1.length ≤ l.length := by
  intro l
  induction l with
  | nil => exact Nat.le_refl _
  | cons t ts ih =>
    by_cases h : s = t
    · simp [removeFirst, h]
    · simp only [removeFirst, if_neg h, List.length_cons]
      omega

theorem removeFirst_flag_true (s : String) : ∀ (l : List String),
    (removeFirst s l).2 = true → (removeFirst s l).1.length + 1 = l.length := by
  intro l
  induction l with
  | nil => intro h; simp [removeFirst] at h
  | cons t ts ih =>
    intro h
    by_cases hst : s = t
    · simp [removeFirst, hst]
    · simp only [removeFirst, if_neg hst] at h ⊢
      simp only [List.length_cons]
      rw [ih h]

theorem removeFirst_flag_false (s : String) : ∀ (l : List String),
    (removeFirst s l).2 = false → (removeFirst s l).1 = l := by
  intro l
  induction l with
  | nil => intro _; rfl
  | cons t ts ih =>
    intro h
    by_cases hst : s = t
    · simp [removeFirst, hst] at h
    · simp only [removeFirst, if_neg hst] at h ⊢
      rw [ih h]

theorem removeAux_decomp : ∀ (rm c : List String) (b : Bool),
    removeAux (c, b) rm =
      ((removeAux (c, false) rm).1, b || (removeAux (c, false) rm).2) := by
  intro rm
  induction rm with
  | nil => intro c b; simp [removeAux]
  | cons r rest ih =>
    intro c b
    simp only [removeAux]
    rw [ih (removeFirst r c).1 (b || (removeFirst r c).2),
      ih (removeFirst r c).1 (false || (removeFirst r c).2)]
    simp [Bool.or_assoc]

theorem countS_removeAux : ∀ (rm c : List String) (s : String),
    countS s (removeAux (c, false) rm).1 =
      countS s c - min (countS s rm) (countS s c) := by
  intro rm
  induction rm with
  | nil => intro c s; simp [removeAux, countS]
  | cons r rest ih =>
    intro c s
    simp only [removeAux, Bool.false_or]
    rw [removeAux_decomp]
    simp only []
    rw [ih (removeFirst r c).1 s]
    by_cases hrs : r = s
    · subst hrs
      rw [countS_removeFirst_self]
      have hcnt : countS r (r :: rest) = 1 + countS r rest := by simp [countS]
      rw [hcnt]
      omega
    · rw [countS_removeFirst_ne r s hrs]
      have : ¬ r = s := hrs
      simp only [countS, if_neg this]
      omega

theorem removeAux_len_le : ∀ (rm c : List String),
    (removeAux (c, false) rm).1.length ≤ c.length := by
  intro rm
  induction rm with
  | nil => intro c; exact Nat.le_refl _
  | cons r rest ih =>
    intro c
    simp only [removeAux, Bool.false_or]
    rw [removeAux_decomp]
    simp only []
    exact Nat.le_trans (ih (removeFirst r c).1) (removeFirst_len_le r c)

theorem removeAux_flag_false : ∀ (rm c : List String),
    (removeAux (c, false) rm).2 = false → (removeAux (c, false) rm).1 = c := by
  intro rm
  induction rm with
  | nil => intro c _; rfl
  | cons r rest ih =>
    intro c h
    simp only [removeAux, Bool.false_or] at h ⊢
    rw [removeAux_decomp] at h ⊢
    simp only [Bool.or_eq_false_iff] at h
    simp only []
    rw [ih (removeFirst r c).1 h.2, removeFirst_flag_false r c h.1]

theorem removeAux_flag_true : ∀ (rm c : List String),
    (removeAux (c, false) rm).2 = true → (removeAux (c, false) rm).1.length < c.length := by
  intro rm
  induction rm with
  | nil => intro c h; simp [removeAux] at h
  | cons r rest ih =>
    intro c h
    simp only [removeAux, Bool.false_or] at h ⊢
    rw [removeAux_decomp] at h ⊢
    simp only [Bool.or_eq_true] at h
    simp only []
    rcases h with h | h
    · have h1 := removeFirst_flag_true r c h
      have h2 := removeAux_len_le rest (removeFirst r c).1
      omega
    · have h1 := ih (removeFirst r c).1 h
      have h2 := removeFirst_len_le r c
      omega

theorem remove_flag_iff (cur rm : List String) :
    (removeServerItems cur rm).2 = true ↔ (removeServerItems cur rm).1 ≠ cur := by
  constructor
  · intro h heq
    have heq' : (removeAux (cur, false) rm).1 = cur := heq
    have := removeAux_flag_true rm cur h
    rw [heq'] at this
    exact Nat.lt_irrefl _ this
  · intro h
    cases hflag : (removeServerItems cur rm).2 with
    | true => rfl
    | false => exact absurd (removeAux_flag_false rm cur hflag) h

theorem countS_remove (cur rm : List String) (s : String) :
    countS s (removeServerItems cur rm).1 =
      countS s cur - min (countS s rm) (countS s cur) :=
  countS_removeAux rm cur s

theorem listCharLe_total : ∀ (a b : List Char),
    listCharLe a b = true ∨ listCharLe b a = true := by
  intro a
  induction a with
  | nil => intro b; exact Or.inl rfl
  | cons x xs ih =>
    intro b
    cases b with
    | nil => exact Or.inr rfl
    | cons y ys =>
      simp only [listCharLe]
      rcases Nat.lt_trichotomy x.toNat y.toNat with h | h | h
      · left; simp [h]
      · have h1 : ¬ x.toNat < y.toNat := by omega
        have h2 : ¬ y.toNat < x.toNat := by omega
        rw [if_neg h1, if_neg h2, if_neg h2, if_neg h1]
        exact ih ys
      · right; simp [h]

theorem listCharLe_trans : ∀ (a b c : List Char), listCharLe a b = true →
    listCharLe b c = true → listCharLe a c = true := by
  intro a
  induction a with
  | nil => intro b c _ _; rfl
  | cons x xs ih =>
    intro b c hab hbc
    cases b with
    | nil => simp [listCharLe] at hab
    | cons y ys =>
      cases c with
      | nil => simp [listCharLe] at hbc
      | cons z zs =>
        simp only [listCharLe] at hab hbc ⊢
        split_ifs at hab hbc ⊢ <;>
          first
          | rfl
          | exact Bool.noConfusion hab
          | exact Bool.noConfusion hbc
          | (exfalso; omega)
          | exact ih ys zs hab hbc

theorem strLe_total (a b : String) : strLe a b = true ∨ strLe b a = true :=
  listCharLe_total a.data b.data

theorem strLe_trans (a b c : String) (h1 : strLe a b = true) (h2 : strLe b c = true) :
    strLe a c = true :=
  listCharLe_trans a.data b.data c.data h1 h2

theorem insertSortedStr_perm (s : String) : ∀ (l : List String),
    (insertSortedStr s l).Perm (s :: l) := by
  intro l
  induction l with
  | nil => exact List.Perm.refl _
  | cons t ts ih =>
    by_cases h : strLe s t = true
    · rw [insertSortedStr, if_pos h]
    · rw [insertSortedStr, if_neg h]
      exact (ih.cons t).trans (List.Perm.swap s t ts)

theorem sortStrings_perm : ∀ (l : List String), (sortStrings l).Perm l := by
  intro l
  induction l with
  | nil => exact List.Perm.refl _
  | cons s ss ih =>
    rw [sortStrings]
    exact (insertSortedStr_perm s (sortStrings ss)).trans (ih.cons s)

theorem insertSortedStr_pairwise (s : String) : ∀ (l : List String),
    l.Pairwise (fun a b => strLe a b = true) →
    (insertSortedStr s l).Pairwise (fun a b => strLe a b = true) := by
  intro l
  induction l with
  | nil => intro _; simp [insertSortedStr]
  | cons t ts ih =>
    intro h
    rcases List.pairwise_cons.1 h with ⟨h1, h2⟩
    by_cases hle : strLe s t = true
    · rw [insertSortedStr, if_pos hle]
      refine List.pairwise_cons.2 ⟨?_, h⟩
      intro x hx
      rcases List.mem_cons.1 hx with hx | hx
      · rw [hx]; exact hle
      · exact strLe_trans s t x hle (h1 x hx)
    · rw [insertSortedStr, if_neg hle]
      have hts : strLe t s = true := (strLe_total s t).resolve_left hle
      refine List.pairwise_cons.2 ⟨?_, ih h2⟩
      intro x hx
      have hx' := (insertSortedStr_perm s ts).mem_iff.1 hx
      rcases List.mem_cons.1 hx' with hx' | hx'
      · rw [hx']; exact hts
      · exact h1 x hx'

theorem sortStrings_pairwise : ∀ (l : List String),
    (sortStrings l).Pairwise (fun a b => strLe a b = true) := by
  intro l
  induction l with
  | nil => simp [sortStrings]
  | cons s ss ih => exact insertSortedStr_pairwise s (sortStrings ss) ih

theorem countS_perm {l l' : List String} (h : l.Perm l') (s : String) :
    countS s l = countS s l' := by
  induction h with
  | nil => rfl
  | cons x _ ih => simp only [countS, ih]
  | swap x y l => simp only [countS]; omega
  | trans _ _ ih1 ih2 => exact ih1.trans ih2

theorem countS_sortStrings (l : List String) (s : String) :
    countS s (sortStrings l) = countS s l :=
  countS_perm (sortStrings_perm l) s

theorem dropCR_no_cr (l : List Char) (h : l.getLast? ≠ some '\r') : dropCR l = l := by
  unfold dropCR
  cases hl : l.getLast? with
  | none => rfl
  | some c =>
    have hc : ¬ c = '\r' := fun hcc => h (by rw [hl, hcc])
    simp [hc]

theorem scanLines_append_line : ∀ (l acc rest : List Char),
    (∀ c ∈ l, ¬ c = '\x0a') →
    scanLines (l ++ '\x0a' :: rest) acc =
      String.mk (dropCR (acc.reverse ++ l)) :: scanLines rest [] := by
  intro l
  induction l with
  | nil =>
    intro acc rest _
    simp [scanLines]
  | cons c cs ih =>
    intro acc rest h
    have hc : ¬ c = '\x0a' := h c (List.mem_cons_self _ _)
    have hstep : (c :: cs) ++ '\x0a' :: rest = c :: (cs ++ '\x0a' :: rest) := rfl
    rw [hstep]
    rw [show scanLines (c :: (cs ++ '\x0a' :: rest)) acc
          = scanLines (cs ++ '\x0a' :: rest) (c :: acc) by
        simp only [scanLines, if_neg hc]]
    rw [ih (c :: acc) rest (fun d hd => h d (List.mem_cons_of_mem _ hd))]
    simp [List.reverse_cons, List.append_assoc]

theorem scan_write_roundtrip : ∀ (ls : List String), (∀ s ∈ ls, goodLine s) →
    scanLines (ls.foldr (fun s acc => s.data ++ '\x0a' :: acc) []) [] = ls := by
  intro ls
  induction ls with
  | nil => intro _; rfl
  | cons s ss ih =>
    intro h
    have hs := h s (List.mem_cons_self _ _)
    have hnl : ∀ c ∈ s.data, ¬ c = '\x0a' := fun c hc he => hs.1 (he ▸ hc)
    simp only [List.foldr_cons]
    rw [scanLines_append_line s.data [] _ hnl,
      ih (fun x hx => h x (List.mem_cons_of_mem _ hx))]
    simp only [List.reverse_nil, List.nil_append]
    rw [dropCR_no_cr s.data hs.2]

theorem countS_pos_of_mem {s : String} {l : List String} (h : s ∈ l) :
    1 ≤ countS s l := by
  by_contra hc
  push_neg at hc
  exact (countS_eq_zero_iff s l).1 (by omega) h

theorem lookupInst_update_proj (g : DNSInstance → Option (List String)) (fs : FS)
    (n : String) (f : DNSInstance → DNSInstance)
    (hf : ∀ i, g (f i) = g i) (m : String) :
    g (lookupInst (updateInstance fs n f) m) = g (lookupInst fs m) := by
  induction fs with
  | nil => rfl
  | cons p ps ih =>
    rw [updateInstance_cons]
    by_cases hp : p.1 = n
    · rw [if_pos hp]
      by_cases hm : p.1 = m
      · simp [lookupInst, hm, hf]
      · simp [lookupInst, hm, ih]
    · rw [if_neg hp]
      by_cases hm : p.1 = m <;> simp [lookupInst, hm, ih]

theorem addServers_collide (fs : FS) (n dom : String) (items : List String)
    (h : isDomainInList dom (readIgnoreNotExist (lookupInst fs n).ownServers) = true) :
    addServersToInstance fs n dom items = .error (.domainExists dom) := by
  simp [addServersToInstance, h]

theorem addServers_ok (fs : FS) (n dom : String) (items : List String)
    (h : isDomainInList dom (readIgnoreNotExist (lookupInst fs n).ownServers) = false) :
    ∃ (fs1 : FS) (ret : List String),
      addServersToInstance fs n dom items = .ok (fs1, ret) ∧
      (∀ m, ¬ m = n → lookupInst fs1 m = lookupInst fs m) ∧
      (∀ m, (lookupInst fs1 m).ownServers = (lookupInst fs m).ownServers) ∧
      fsNames fs1 = fsNames fs := by
  refine ⟨(if (mergeServerItems (readIgnoreNotExist (lookupInst fs n).localServers)
        items).2 = true then
      updateInstance fs n fun i =>
        { ownServers := i.ownServers,
          localServers := some (sortStrings (mergeServerItems
            (readIgnoreNotExist (lookupInst fs n).localServers) items).1),
          running := i.running,
          restarts := if i.running = true then i.restarts + 1 else i.restarts }
    else fs),
    readIgnoreNotExist (lookupInst fs n).localServers ++
      readIgnoreNotExist (lookupInst fs n).ownServers, ?_, ?_, ?_, ?_⟩
  · simp [addServersToInstance, h]
  · intro m hm
    by_cases hb : (mergeServerItems (readIgnoreNotExist (lookupInst fs n).localServers)
        items).2 = true
    · rw [if_pos hb]
      exact lookupInst_update_ne fs n _ hm
    · rw [if_neg hb]
  · intro m
    by_cases hb : (mergeServerItems (readIgnoreNotExist (lookupInst fs n).localServers)
        items).2 = true
    · rw [if_pos hb]
      apply lookupInst_update_own
      intro i
      rfl
    · rw [if_neg hb]
  · by_cases hb : (mergeServerItems (readIgnoreNotExist (lookupInst fs n).localServers)
        items).2 = true
    · rw [if_pos hb]
      exact fsNames_update fs n _
    · rw [if_neg hb]

theorem addServers_ok_frame (fs : FS) (n dom : String) (items : List String)
    (fs1 : FS) (ret : List String)
    (h : addServersToInstance fs n dom items = .ok (fs1, ret)) :
    (∀ m, ¬ m = n → lookupInst fs1 m = lookupInst fs m) ∧
    (∀ m, (lookupInst fs1 m).ownServers = (lookupInst fs m).ownServers) ∧
    fsNames fs1 = fsNames fs := by
  cases hcol : isDomainInList dom (readIgnoreNotExist (lookupInst fs n).ownServers) with
  | true =>
    rw [addServers_collide fs n dom items hcol] at h
    exact absurd h (by simp)
  | false =>
    obtain ⟨fs1', ret', hok, hfr, hown, hnames⟩ := addServers_ok fs n dom items hcol
    rw [hok] at h
    simp only [Except.ok.injEq, Prod.mk.injEq] at h
    obtain ⟨h1, h2⟩ := h
    subst h1
    exact ⟨hfr, hown, hnames⟩

theorem addLoop_cons_skip (fs : FS) (n : String) (rest : List String) (curDir dom : String)
    (items acc : List String) (h : n = curDir) :
    addLoop fs (n :: rest) curDir dom items acc = addLoop fs rest curDir dom items acc := by
  simp [addLoop, h]

theorem addLoop_cons_err (fs : FS) (n : String) (rest : List String) (curDir dom : String)
    (items acc : List String) (e : SrvErr) (hn : ¬ n = curDir)
    (he : addServersToInstance fs n dom items = .error e) :
    addLoop fs (n :: rest) curDir dom items acc = (fs, acc, some e) := by
  simp [addLoop, hn, he]

theorem addLoop_cons_ok (fs : FS) (n : String) (rest : List String) (curDir dom : String)
    (items acc : List String) (fs1 : FS) (ret : List String) (hn : ¬ n = curDir)
    (hok : addServersToInstance fs n dom items = .ok (fs1, ret)) :
    addLoop fs (n :: rest) curDir dom items acc =
      addLoop fs1 rest curDir dom items (mergeServerItems acc ret).1 := by
  simp [addLoop, hn, hok]

theorem addLoop_cur_frame : ∀ (names : List String) (fs : FS) (curDir dom : String)
    (items acc : List String),
    lookupInst (addLoop fs names curDir dom items acc).1 curDir = lookupInst fs curDir := by
  intro names
  induction names with
  | nil => intro fs curDir dom items acc; rfl
  | cons n rest ih =>
    intro fs curDir dom items acc
    by_cases hn : n = curDir
    · rw [addLoop_cons_skip fs n rest curDir dom items acc hn]
      exact ih fs curDir dom items acc
    · cases hres : addServersToInstance fs n dom items with
      | error e => rw [addLoop_cons_err fs n rest curDir dom items acc e hn hres]
      | ok res =>
        rcases res with ⟨fs1, ret⟩
        rw [addLoop_cons_ok fs n rest curDir dom items acc fs1 ret hn hres,
          ih fs1 curDir dom items (mergeServerItems acc ret).1]
        exact (addServers_ok_frame fs n dom items fs1 ret hres).1 curDir
          (fun hc => hn hc.symm)

theorem addLoop_names : ∀ (names : List String) (fs : FS) (curDir dom : String)
    (items acc : List String),
    fsNames (addLoop fs names curDir dom items acc).1 = fsNames fs := by
  intro names
  induction names with
  | nil => intro fs curDir dom items acc; rfl
  | cons n rest ih =>
    intro fs curDir dom items acc
    by_cases hn : n = curDir
    · rw [addLoop_cons_skip fs n rest curDir dom items acc hn]
      exact ih fs curDir dom items acc
    · cases hres : addServersToInstance fs n dom items with
      | error e => rw [addLoop_cons_err fs n rest curDir dom items acc e hn hres]
      | ok res =>
        rcases res with ⟨fs1, ret⟩
        rw [addLoop_cons_ok fs n rest curDir dom items acc fs1 ret hn hres,
          ih fs1 curDir dom items (mergeServerItems acc ret).1]
        exact (addServers_ok_frame fs n dom items fs1 ret hres).2.2

theorem addLoop_acc_le : ∀ (names : List String) (fs : FS) (curDir dom : String)
    (items acc : List String) (s : String), countS s acc ≤ 1 →
    countS s (addLoop fs names curDir dom items acc).2.1 ≤ 1 := by
  intro names
  induction names with
  | nil => intro fs curDir dom items acc s h; exact h
  | cons n rest ih =>
    intro fs curDir dom items acc s h
    by_cases hn : n = curDir
    · rw [addLoop_cons_skip fs n rest curDir dom items acc hn]
      exact ih fs curDir dom items acc s h
    · cases hres : addServersToInstance fs n dom items with
      | error e =>
        rw [addLoop_cons_err fs n rest curDir dom items acc e hn hres]
        exact h
      | ok res =>
        rcases res with ⟨fs1, ret⟩
        rw [addLoop_cons_ok fs n rest curDir dom items acc fs1 ret hn hres]
        refine ih fs1 curDir dom items (mergeServerItems acc ret).1 s ?_
        have hle := countS_merge_le acc ret s
        omega

theorem removeServers_ok_own (fs : FS) (n : String) (items : List String) (fs' : FS)
    (h : removeServersFromInstance fs n items = .ok fs') (m : String) :
    (lookupInst fs' m).ownServers = (lookupInst fs m).ownServers := by
  cases hls : (lookupInst fs n).localServers with
  | none =>
    simp only [removeServersFromInstance, hls, readServerItems] at h
    exact absurd h (by simp)
  | some cur =>
    simp only [removeServersFromInstance, hls, readServerItems, Except.ok.injEq] at h
    rw [← h]
    by_cases hb : (removeServerItems cur items).2 = true
    · rw [if_pos hb]
      apply lookupInst_update_own
      intro i
      rfl
    · rw [if_neg hb]

theorem removeLoop_cons_skip (fs : FS) (n : String) (rest : List String) (curDir : String)
    (items : List String) (h : n = curDir) :
    removeLoop fs (n :: rest) curDir items = removeLoop fs rest curDir items := by
  simp [removeLoop, h]

theorem removeLoop_cons_err (fs : FS) (n : String) (rest : List String) (curDir : String)
    (items : List String) (e : SrvErr) (hn : ¬ n = curDir)
    (he : removeServersFromInstance fs n items = .error e) :
    removeLoop fs (n :: rest) curDir items = (fs, some e) := by
  simp [removeLoop, hn, he]

theorem removeLoop_cons_ok (fs : FS) (n : String) (rest : List String) (curDir : String)
    (items : List String) (fs1 : FS) (hn : ¬ n = curDir)
    (hok : removeServersFromInstance fs n items = .ok fs1) :
    removeLoop fs (n :: rest) curDir items = removeLoop fs1 rest curDir items := by
  simp [removeLoop, hn, hok]

theorem removeLoop_own : ∀ (names : List String) (fs : FS) (curDir : String)
    (items : List String) (m : String),
    (lookupInst (removeLoop fs names curDir items).1 m).ownServers =
      (lookupInst fs m).ownServers := by
  intro names
  induction names with
  | nil => intro fs curDir items m; rfl
  | cons n rest ih =>
    intro fs curDir items m
    by_cases hn : n = curDir
    · rw [removeLoop_cons_skip fs n rest curDir items hn]
      exact ih fs curDir items m
    · cases hres : removeServersFromInstance fs n items with
      | error e => rw [removeLoop_cons_err fs n rest curDir items e hn hres]
      | ok fs1 =>
        rw [removeLoop_cons_ok fs n rest curDir items fs1 hn hres,
          ih fs1 curDir items m]
        exact removeServers_ok_own fs n items fs1 hres m

theorem addLoop_collision (curDir domainName : String) (serverItems : List String)
    (fs0 : FS) (d : String) (post : List String)
    (hdc : ¬ d = curDir)
    (hcol : isDomainInList domainName
      (readIgnoreNotExist (lookupInst fs0 d).ownServers) = true) :
    ∀ (pre : List String) (fs : FS) (acc : List String),
      (∀ n ∈ pre, ¬ n = curDir →
        isDomainInList domainName
          (readIgnoreNotExist (lookupInst fs0 n).ownServers) = false) →
      (∀ n ∈ pre, ¬ n = d ∧ n ∉ post) →
      (∀ m, ¬ m = curDir →
        (lookupInst fs m).ownServers = (lookupInst fs0 m).ownServers) →
      (∀ m, ¬ m = curDir → (m = d ∨ m ∈ post) → lookupInst fs m = lookupInst fs0 m) →
      (addLoop fs (pre ++ d :: post) curDir domainName serverItems acc).2.2 =
        some (.domainExists domainName) ∧
      (∀ m, ¬ m = curDir → (m = d ∨ m ∈ post) →
        lookupInst (addLoop fs (pre ++ d :: post) curDir domainName serverItems acc).1 m =
          lookupInst fs0 m) := by
  intro pre
  induction pre with
  | nil =>
    intro fs acc _ _ hI1 hI2
    have hcd : isDomainInList domainName
        (readIgnoreNotExist (lookupInst fs d).ownServers) = true := by
      rw [hI1 d hdc]; exact hcol
    have herr := addServers_collide fs d domainName serverItems hcd
    rw [List.nil_append, addLoop_cons_err fs d post curDir domainName serverItems acc _ hdc herr]
    exact ⟨rfl, fun m hm hmd => hI2 m hm hmd⟩
  | cons p pre' ih =>
    intro fs acc hpre hdisj hI1 hI2
    rw [List.cons_append]
    by_cases hp : p = curDir
    · rw [addLoop_cons_skip fs p (pre' ++ d :: post) curDir domainName serverItems acc hp]
      exact ih fs acc (fun n hn => hpre n (List.mem_cons_of_mem _ hn))
        (fun n hn => hdisj n (List.mem_cons_of_mem _ hn)) hI1 hI2
    · have hcolp : isDomainInList domainName
          (readIgnoreNotExist (lookupInst fs p).ownServers) = false := by
        rw [hI1 p hp]
        exact hpre p (List.mem_cons_self _ _) hp
      obtain ⟨fs1, ret, hok, hfr, hown, _⟩ := addServers_ok fs p domainName serverItems hcolp
      rw [addLoop_cons_ok fs p (pre' ++ d :: post) curDir domainName serverItems acc
        fs1 ret hp hok]
      refine ih fs1 (mergeServerItems acc ret).1
        (fun n hn => hpre n (List.mem_cons_of_mem _ hn))
        (fun n hn => hdisj n (List.mem_cons_of_mem _ hn))
        (fun m hm => (hown m).trans (hI1 m hm))
        (fun m hm hmd => ?_)
      have hmp : ¬ m = p := by
        rcases hmd with hmd | hmd
        · intro hmp
          exact (hdisj p (List.mem_cons_self _ _)).1 (by rw [← hmp, hmd])
        · intro hmp
          exact (hdisj p (List.mem_cons_self _ _)).2 (hmp ▸ hmd)
      rw [hfr m hmp]
      exact hI2 m hm hmd

theorem ownWrite_ne (fs : FS) (conf : DNSNameFile) (items : List String) {m : String}
    (h : ¬ m = conf.network) : lookupInst (ownWrite fs conf items) m = lookupInst fs m :=
  lookupInst_update_ne fs conf.network _ h

theorem ownWrite_local (fs : FS) (conf : DNSNameFile) (items : List String) (m : String) :
    (lookupInst (ownWrite fs conf items) m).localServers =
      (lookupInst fs m).localServers :=
  lookupInst_update_proj (fun i => i.localServers) fs conf.network
    (fun i => { i with ownServers := some items }) (fun _ => rfl) m

theorem ownWrite_names (fs : FS) (conf : DNSNameFile) (items : List String) :
    fsNames (ownWrite fs conf items) = fsNames fs :=
  fsNames_update fs conf.network _

theorem locWrite_not_has (fs : FS) (n : String) (l : List String)
    (h : hasName fs n = false) : locWrite fs n l = fs :=
  updateInstance_not_has fs n _ h

theorem locWrite_self (fs : FS) (n : String) (l : List String)
    (h : hasName fs n = true) :
    lookupInst (locWrite fs n l) n =
      { lookupInst fs n with localServers := some l } :=
  lookupInst_update_self fs n _ h

theorem addLocal_loop_err (fs : FS) (conf : DNSNameFile) (servers : List String)
    (fs2 : FS) (accF : List String) (e : SrvErr)
    (h : addLoop (ownWrite fs conf (itemsOf conf servers))
        (fsNames (ownWrite fs conf (itemsOf conf servers))) conf.network conf.domain
        (itemsOf conf servers)
        (readIgnoreNotExist (lookupInst (ownWrite fs conf (itemsOf conf servers))
          conf.network).localServers) = (fs2, accF, some e)) :
    addLocalServersFS fs conf servers = (fs2, some e) := by
  simp only [addLocalServersFS, h]

theorem addLocal_loop_ok (fs : FS) (conf : DNSNameFile) (servers : List String)
    (fs2 : FS) (accF : List String)
    (h : addLoop (ownWrite fs conf (itemsOf conf servers))
        (fsNames (ownWrite fs conf (itemsOf conf servers))) conf.network conf.domain
        (itemsOf conf servers)
        (readIgnoreNotExist (lookupInst (ownWrite fs conf (itemsOf conf servers))
          conf.network).localServers) = (fs2, accF, none)) :
    addLocalServersFS fs conf servers =
      (locWrite fs2 conf.network
        (sortStrings (removeServerItems accF (itemsOf conf servers)).1), none) := by
  simp only [addLocalServersFS, h]

/-- C1: end-to-end add propagation.  Starting from the four-instance
scenario (net1/net2/net3 each own exactly their scoped line, their
local-servers files hold the other two lines, net4's directory is
empty), `addLocalServers` for net4 with server 192.168.4.1 succeeds;
net1/net2/net3's local-servers files each gain exactly the line
`server=/net4/192.168.4.1` while their own-servers files stay
unchanged; net4's own-servers file holds exactly
`server=/net4/192.168.4.1`; and net4's local-servers file holds exactly
the union of net1/net2/net3's own-servers lines. -/
theorem C1_add_propagation :
    (addLocalServersFS fourNetFS conf4 ["192.168.4.1"]).2 = none ∧
    (lookupInst postAddFS "net1").localServers =
      some ["server=/net2/192.168.2.1", "server=/net3/192.168.3.1",
        "server=/net4/192.168.4.1"] ∧
    (lookupInst postAddFS "net1").ownServers = some ["server=/net1/192.168.1.1"] ∧
    (lookupInst postAddFS "net2").localServers =
      some ["server=/net1/192.168.1.1", "server=/net3/192.168.3.1",
        "server=/net4/192.168.4.1"] ∧
    (lookupInst postAddFS "net2").ownServers = some ["server=/net2/192.168.2.1"] ∧
    (lookupInst postAddFS "net3").localServers =
      some ["server=/net1/192.168.1.1", "server=/net2/192.168.2.1",
        "server=/net4/192.168.4.1"] ∧
    (lookupInst postAddFS "net3").ownServers = some ["server=/net3/192.168.3.1"] ∧
    (lookupInst postAddFS "net4").ownServers = some ["server=/net4/192.168.4.1"] ∧
    (lookupInst postAddFS "net4").localServers =
      some ["server=/net1/192.168.1.1", "server=/net2/192.168.2.1",
        "server=/net3/192.168.3.1"] := by
  decide

/-- C3: removal is the exact inverse of addition on the four-instance
scenario — running `removeLocalServers` for net4 on the post-add state
succeeds and restores net1/net2/net3's local-servers files to their
pre-add content — and, in general, `removeLocalServers` never writes
any instance's own-servers file (neither the remover's nor any
sibling's), even on a failing call. -/
theorem C3_remove_inverse :
    ((removeLocalServersFS postAddFS conf4 ["192.168.4.1"]).2 = none ∧
     (lookupInst (removeLocalServersFS postAddFS conf4 ["192.168.4.1"]).1 "net1").localServers =
       some ["server=/net2/192.168.2.1", "server=/net3/192.168.3.1"] ∧
     (lookupInst (removeLocalServersFS postAddFS conf4 ["192.168.4.1"]).1 "net2").localServers =
       some ["server=/net1/192.168.1.1", "server=/net3/192.168.3.1"] ∧
     (lookupInst (removeLocalServersFS postAddFS conf4 ["192.168.4.1"]).1 "net3").localServers =
       some ["server=/net1/192.168.1.1", "server=/net2/192.168.2.1"]) ∧
    (∀ (fs : FS) (conf : DNSNameFile) (servers : List String) (n : String),
      (lookupInst (removeLocalServersFS fs conf servers).1 n).ownServers =
        (lookupInst fs n).ownServers) := by
  constructor
  · decide
  · intro fs conf servers n
    exact removeLoop_own (fsNames fs) fs conf.network
      (serversToServerItems conf.domain servers) n

/-- C6: code bug in the Check operation.  `cmdCheck` lists the shared
conf root and looks for the config-file and hosts-file names among the
root's entries, but those files live inside the instance's own
directory: with the daemon running and the instance's config and hosts
files both present (root listing the net1 network directory), the check
still fails, contradicting the spec's "succeeds iff running and config
and hosts files exist". -/
theorem C6_check_wrong_directory :
    healthyCheckState.running = true ∧
    healthyCheckState.confFileExists = true ∧
    healthyCheckState.hostsFileExists = true ∧
    cmdCheckModel healthyCheckState =
      .error (hostsFileName ++ " file missing from configuration") :=
  ⟨rfl, rfl, rfl, rfl⟩

/-- C7: merge is an order-preserving idempotent union: the result is
`current` with the not-yet-present lines of `incoming` appended in
first-seen order (`freshOnes`), membership in the result is exactly
membership in `current` or `incoming`, the changed flag is true iff at
least one line was appended (iff the result differs from `current`),
and `merge X X = (X, false)`. -/
theorem C7_merge_union :
    (∀ cur inc : List String, (mergeServerItems cur inc).1 = cur ++ freshOnes cur inc) ∧
    (∀ (cur inc : List String) (s : String),
      s ∈ (mergeServerItems cur inc).1 ↔ s ∈ cur ∨ s ∈ inc) ∧
    (∀ cur inc : List String,
      (mergeServerItems cur inc).2 = true ↔ (mergeServerItems cur inc).1 ≠ cur) ∧
    (∀ X : List String, mergeServerItems X X = (X, false)) := by
  refine ⟨merge_eq_append, ?_, merge_flag_iff, merge_self⟩
  intro cur inc s
  rw [merge_eq_append]
  constructor
  · intro h
    rcases List.mem_append.1 h with h | h
    · exact Or.inl h
    · exact Or.inr (freshOnes_subset inc cur s h)
  · intro h
    rcases h with h | h
    · exact List.mem_append_left _ h
    · exact mem_append_freshOnes inc cur s h

/-- C8: remove deletes at most one occurrence per target line: removing
a single line deletes exactly its first occurrence (even when
duplicates exist) and reports no change when the line is absent; in
general each occurrence of a line in `toRemove` deletes at most one
occurrence from `current` (the count equation), and the changed flag is
true iff at least one deletion occurred (iff the result differs from
`current`). -/
theorem C8_remove_first_occurrence :
    (∀ (s : String) (a b : List String), s ∉ a →
      removeServerItems (a ++ s :: b) [s] = (a ++ b, true)) ∧
    (∀ (s : String) (cur : List String), s ∉ cur →
      removeServerItems cur [s] = (cur, false)) ∧
    (∀ (cur rm : List String) (s : String),
      countS s (removeServerItems cur rm).1 =
        countS s cur - min (countS s rm) (countS s cur)) ∧
    (∀ cur rm : List String,
      (removeServerItems cur rm).2 = true ↔ (removeServerItems cur rm).1 ≠ cur) := by
  refine ⟨?_, ?_, countS_remove, remove_flag_iff⟩
  · intro s a b h
    have h1 := removeFirst_first_occ s a b h
    simp [removeServerItems, removeAux, h1]
  · intro s cur h
    have h1 := removeFirst_not_mem s cur h
    simp [removeServerItems, removeAux, h1]

/-- C8 witness: on ["a", "x", "x"] removing ["x"] deletes only the
first "x"; on ["a"] removing ["x"] reports no change. -/
theorem C8_witness :
    ("x" ∉ (["a"] : List String)) ∧
    removeServerItems (["a", "x", "x"] : List String) ["x"] = (["a", "x"], true) ∧
    removeServerItems (["a"] : List String) ["x"] = (["a"], false) :=
  ⟨by decide,
   C8_remove_first_occurrence.1 "x" ["a"] ["x"] (by decide),
   C8_remove_first_occurrence.2.1 "x" ["a"] (by decide)⟩

/-- C9: write/read round-trip.  For well-formed lines (no embedded
newline, no trailing carriage return), reading back what
`writeServerItems` wrote yields exactly the sorted lines: the read
sequence is a permutation of the written lines (same multiset, hence
same set), it is sorted lexicographically, and membership is preserved
both ways. -/
theorem C9_write_read_roundtrip (servers : List String)
    (h : ∀ s ∈ servers, goodLine s) :
    scanFileLines (writeFileContent servers) = sortStrings servers ∧
    (sortStrings servers).Perm servers ∧
    (sortStrings servers).Pairwise (fun a b => strLe a b = true) ∧
    (∀ l, l ∈ scanFileLines (writeFileContent servers) ↔ l ∈ servers) := by
  have hsorted : ∀ s ∈ sortStrings servers, goodLine s :=
    fun s hs => h s ((sortStrings_perm servers).mem_iff.mp hs)
  have hrt : scanFileLines (writeFileContent servers) = sortStrings servers :=
    scan_write_roundtrip (sortStrings servers) hsorted
  refine ⟨hrt, sortStrings_perm servers, sortStrings_pairwise servers, ?_⟩
  intro l
  rw [hrt]
  exact (sortStrings_perm servers).mem_iff

/-- C9 witness: a concrete two-line round-trip through the byte-level
store. -/
theorem C9_witness :
    (∀ s ∈ (["server=/net2/b", "server=/net1/a"] : List String), goodLine s) ∧
    scanFileLines (writeFileContent ["server=/net2/b", "server=/net1/a"]) =
      ["server=/net1/a", "server=/net2/b"] :=
  ⟨by decide, by
    rw [(C9_write_read_roundtrip ["server=/net2/b", "server=/net1/a"] (by decide)).1]
    decide⟩

/-- C10: a pid file that exists but holds non-numeric content makes
`stop` fail with the pid-parse error, while `stop` on an absent pid
file succeeds and `isRunning` classifies the same corrupt-pid-file
state as not running. -/
theorem C10_corrupt_pidfile (contents : String) (alive killFails : String → Bool)
    (h : atoiOk (trimSpace contents) = false) :
    stopE (some contents) killFails = .error .parseError ∧
    stopE none killFails = .ok () ∧
    isRunningE (some contents) alive = false := by
  refine ⟨?_, rfl, ?_⟩
  · simp [stopE, getProcessE, h]
  · simp [isRunningE, getProcessE, h]

/-- C10 witness: the pid-file content "abc". -/
theorem C10_witness :
    atoiOk (trimSpace "abc") = false ∧
    stopE (some "abc") (fun _ => false) = .error .parseError ∧
    stopE none (fun _ => false) = .ok () ∧
    isRunningE (some "abc") (fun _ => false) = false :=
  ⟨by decide,
   (C10_corrupt_pidfile "abc" (fun _ => false) (fun _ => false) (by decide)).1,
   (C10_corrupt_pidfile "abc" (fun _ => false) (fun _ => false) (by decide)).2.1,
   (C10_corrupt_pidfile "abc" (fun _ => false) (fun _ => false) (by decide)).2.2⟩

/-- C2: domain-collision abort.  If the sibling enumeration splits as
`pre ++ d :: post` with `d` the first sibling whose own-servers file
already lists the adding instance's domain (entries before `d` that are
siblings do not collide), then `addLocalServers` fails with the
domain-already-exists error, and neither `d` nor any sibling
enumerated after it has its instance state (local-servers file,
restart count) changed by the call; siblings processed before the
collision may remain mutated. -/
theorem C2_domain_collision_abort (fs : FS) (conf : DNSNameFile) (servers : List String)
    (pre post : List String) (d : String)
    (hsplit : fsNames fs = pre ++ d :: post)
    (hnodup : (fsNames fs).Nodup)
    (hd : ¬ d = conf.network)
    (hcol : isDomainInList conf.domain
      (readIgnoreNotExist (lookupInst fs d).ownServers) = true)
    (hpre : ∀ n ∈ pre, ¬ n = conf.network →
      isDomainInList conf.domain
        (readIgnoreNotExist (lookupInst fs n).ownServers) = false) :
    (addLocalServersFS fs conf servers).2 = some (.domainExists conf.domain) ∧
    lookupInst (addLocalServersFS fs conf servers).1 d = lookupInst fs d ∧
    (∀ n ∈ post, ¬ n = conf.network →
      lookupInst (addLocalServersFS fs conf servers).1 n = lookupInst fs n) := by
  have hdisj : ∀ n ∈ pre, ¬ n = d ∧ n ∉ post := by
    rw [hsplit] at hnodup
    rcases List.nodup_append.1 hnodup with ⟨-, -, hdis⟩
    intro n hn
    constructor
    · intro hnd
      exact hdis hn (by rw [hnd]; exact List.mem_cons_self _ _)
    · intro hnp
      exact hdis hn (List.mem_cons_of_mem _ hnp)
  have hI1 : ∀ m, ¬ m = conf.network →
      (lookupInst (ownWrite fs conf (itemsOf conf servers)) m).ownServers =
        (lookupInst fs m).ownServers :=
    fun m hm => by rw [ownWrite_ne fs conf _ hm]
  have hI2 : ∀ m, ¬ m = conf.network → (m = d ∨ m ∈ post) →
      lookupInst (ownWrite fs conf (itemsOf conf servers)) m = lookupInst fs m :=
    fun m hm _ => ownWrite_ne fs conf _ hm
  obtain ⟨herr, hframe⟩ := addLoop_collision conf.network conf.domain
    (itemsOf conf servers) fs d post hd hcol pre
    (ownWrite fs conf (itemsOf conf servers))
    (readIgnoreNotExist (lookupInst (ownWrite fs conf (itemsOf conf servers))
      conf.network).localServers)
    hpre hdisj hI1 hI2
  have hns : fsNames (ownWrite fs conf (itemsOf conf servers)) = pre ++ d :: post := by
    rw [ownWrite_names]; exact hsplit
  rcases hloop : addLoop (ownWrite fs conf (itemsOf conf servers)) (pre ++ d :: post)
      conf.network conf.domain (itemsOf conf servers)
      (readIgnoreNotExist (lookupInst (ownWrite fs conf (itemsOf conf servers))
        conf.network).localServers) with ⟨fs2, accF, errF⟩
  rw [hloop] at herr hframe
  have herr' : errF = some (.domainExists conf.domain) := herr
  have hframe' : ∀ m, ¬ m = conf.network → (m = d ∨ m ∈ post) →
      lookupInst fs2 m = lookupInst fs m := hframe
  subst herr'
  have hres := addLocal_loop_err fs conf servers fs2 accF (.domainExists conf.domain)
    (by rw [hns]; exact hloop)
  refine ⟨?_, ?_, ?_⟩
  · rw [hres]
  · rw [hres]
    exact hframe' d hd (Or.inl rfl)
  · intro n hn hnn
    rw [hres]
    exact hframe' n hnn (Or.inr hn)

/-- C2 witness: net1's own-servers file already claims the domain net4;
adding net4 fails with the domain-exists error and net1 (the detected
sibling) is untouched. -/
theorem C2_witness :
    (addLocalServersFS collidingFS ⟨"net4", "net4"⟩ ["192.168.4.1"]).2 =
      some (.domainExists "net4") ∧
    lookupInst (addLocalServersFS collidingFS ⟨"net4", "net4"⟩ ["192.168.4.1"]).1 "net1" =
      lookupInst collidingFS "net1" :=
  ⟨(C2_domain_collision_abort collidingFS ⟨"net4", "net4"⟩ ["192.168.4.1"] [] ["net4"]
      "net1" (by decide) (by decide) (by decide) (by decide) (by decide)).1,
   (C2_domain_collision_abort collidingFS ⟨"net4", "net4"⟩ ["192.168.4.1"] [] ["net4"]
      "net1" (by decide) (by decide) (by decide) (by decide) (by decide)).2.1⟩

/-- C4 counterexample: with a pre-existing local-servers line for the
instance's own domain under a different IP, `addLocalServers` succeeds
and the final local-servers file still contains a line whose domain
field equals the instance's own domain — refuting the claimed
own-domain exclusion invariant. -/
theorem C4_counterexample :
    (addLocalServersFS staleOwnFS conf4 ["192.168.4.1"]).2 = none ∧
    (readIgnoreNotExist (lookupInst (addLocalServersFS staleOwnFS conf4
        ["192.168.4.1"]).1 "net4").localServers).any (lineHasDomain "net4") = true := by
  decide

/-- C4 (amended): the end-of-call `removeServerItems` deletes only the
newly added own lines by exact match.  For every successful
`addLocalServers` call and every newly added own line that was not
already present in the instance's prior local-servers file, the final
local-servers file written for the instance does not contain that
line; pre-existing lines for the own domain with other IPs (or
pre-existing duplicates) are not removed. -/
theorem C4_no_new_own_line (fs : FS) (conf : DNSNameFile) (servers : List String)
    (s : String)
    (hs : s ∈ itemsOf conf servers)
    (hprior : s ∉ readIgnoreNotExist (lookupInst fs conf.network).localServers)
    (hok : (addLocalServersFS fs conf servers).2 = none) :
    s ∉ readIgnoreNotExist
      (lookupInst (addLocalServersFS fs conf servers).1 conf.network).localServers := by
  rcases hloop : addLoop (ownWrite fs conf (itemsOf conf servers))
      (fsNames (ownWrite fs conf (itemsOf conf servers))) conf.network conf.domain
      (itemsOf conf servers)
      (readIgnoreNotExist (lookupInst (ownWrite fs conf (itemsOf conf servers))
        conf.network).localServers) with ⟨fs2, accF, errF⟩
  cases errF with
  | some e =>
    rw [addLocal_loop_err fs conf servers fs2 accF e hloop] at hok
    exact absurd hok (by simp)
  | none =>
    rw [addLocal_loop_ok fs conf servers fs2 accF hloop]
    change s ∉ readIgnoreNotExist (lookupInst (locWrite fs2 conf.network
      (sortStrings (removeServerItems accF (itemsOf conf servers)).1))
      conf.network).localServers
    have hacc0 : countS s (readIgnoreNotExist (lookupInst (ownWrite fs conf
        (itemsOf conf servers)) conf.network).localServers) = 0 := by
      rw [ownWrite_local]
      exact (countS_eq_zero_iff s _).2 hprior
    have haccF : countS s accF ≤ 1 := by
      have hle := addLoop_acc_le (fsNames (ownWrite fs conf (itemsOf conf servers)))
        (ownWrite fs conf (itemsOf conf servers)) conf.network conf.domain
        (itemsOf conf servers)
        (readIgnoreNotExist (lookupInst (ownWrite fs conf (itemsOf conf servers))
          conf.network).localServers) s (by omega)
      rw [hloop] at hle
      exact hle
    have hfinal : countS s (sortStrings (removeServerItems accF
        (itemsOf conf servers)).1) = 0 := by
      rw [countS_sortStrings, countS_remove]
      have h1 : 1 ≤ countS s (itemsOf conf servers) := countS_pos_of_mem hs
      omega
    cases hhas : hasName fs2 conf.network with
    | false =>
      rw [locWrite_not_has fs2 conf.network _ hhas]
      have hcur : lookupInst fs2 conf.network =
          lookupInst (ownWrite fs conf (itemsOf conf servers)) conf.network := by
        have hfr := addLoop_cur_frame (fsNames (ownWrite fs conf (itemsOf conf servers)))
          (ownWrite fs conf (itemsOf conf servers)) conf.network conf.domain
          (itemsOf conf servers)
          (readIgnoreNotExist (lookupInst (ownWrite fs conf (itemsOf conf servers))
            conf.network).localServers)
        rw [hloop] at hfr
        exact hfr
      intro hmem
      rw [hcur, ownWrite_local] at hmem
      exact hprior hmem
    | true =>
      rw [locWrite_self fs2 conf.network
        (sortStrings (removeServerItems accF (itemsOf conf servers)).1) hhas]
      intro hmem
      have hmem' : s ∈ sortStrings (removeServerItems accF (itemsOf conf servers)).1 :=
        hmem
      have := countS_pos_of_mem hmem'
      omega

/-- C4 witness: in the four-instance scenario the newly added line
`server=/net4/192.168.4.1` does not appear in net4's final
local-servers file. -/
theorem C4_witness :
    ("server=/net4/192.168.4.1" ∈ itemsOf conf4 ["192.168.4.1"]) ∧
    ("server=/net4/192.168.4.1" ∉
      readIgnoreNotExist (lookupInst fourNetFS "net4").localServers) ∧
    ((addLocalServersFS fourNetFS conf4 ["192.168.4.1"]).2 = none) ∧
    ("server=/net4/192.168.4.1" ∉ readIgnoreNotExist
      (lookupInst (addLocalServersFS fourNetFS conf4 ["192.168.4.1"]).1
        "net4").localServers) :=
  ⟨by decide, by decide, by decide,
   C4_no_new_own_line fourNetFS conf4 ["192.168.4.1"] "server=/net4/192.168.4.1"
     (by decide) (by decide) (by decide)⟩

/-- C5 counterexample: with the sibling net1's local-servers file
absent, `removeLocalServers` fails with the propagated read error
instead of succeeding — refuting the claim that every operation of
the propagation subsystem normalizes a missing forwarder file to the
empty set. -/
theorem C5_counterexample :
    (lookupInst missingLocalFS "net1").localServers = none ∧
    (removeLocalServersFS missingLocalFS conf4 ["192.168.4.1"]).2 =
      some (.readErr .notExist) := by
  decide

/-- C5 (amended): `readServerItems` reports a not-exist error for a
missing file; the add path normalizes it to the empty sequence
(`readIgnoreNotExist`, and `addServersToInstance` succeeds when both of
a sibling's forwarder files are absent), but `removeServersFromInstance`
propagates the error, so `removeLocalServers` fails when a sibling's
local-servers file does not exist. -/
theorem C5_absent_file_handling :
    readServerItems none = .error .notExist ∧
    readIgnoreNotExist none = [] ∧
    (∀ (fs : FS) (n : String) (items : List String),
      (lookupInst fs n).localServers = none →
      removeServersFromInstance fs n items = .error (.readErr .notExist)) ∧
    (∀ (fs : FS) (n dom : String) (items : List String),
      (lookupInst fs n).ownServers = none →
      (lookupInst fs n).localServers = none →
      (addServersToInstance fs n dom items).isOk = true) := by
  refine ⟨rfl, rfl, ?_, ?_⟩
  · intro fs n items h
    simp [removeServersFromInstance, h, readServerItems]
  · intro fs n dom items h1 h2
    simp [addServersToInstance, h1, h2, readIgnoreNotExist, readServerItems,
      isDomainInList, Except.isOk, Except.toBool]

/-- C5 witness: net1's absent local-servers file makes the remove path
fail, while the add path succeeds on an instance with no files. -/
theorem C5_witness :
    ((lookupInst missingLocalFS "net1").localServers = none) ∧
    (removeServersFromInstance missingLocalFS "net1" ["server=/net4/192.168.4.1"] =
      .error (.readErr .notExist)) ∧
    ((addServersToInstance staleOwnFS "net9" "net4" ["server=/net4/192.168.4.1"]).isOk =
      true) :=
  ⟨by decide,
   C5_absent_file_handling.2.2.1 missingLocalFS "net1" ["server=/net4/192.168.4.1"]
     (by decide),
   C5_absent_file_handling.2.2.2 staleOwnFS "net9" "net4" ["server=/net4/192.168.4.1"]
     (by decide) (by decide)⟩
